import Mathlib

/-!
Verification development for the evolution interview update pipeline.

The interview document is a nested JSON structure; the update pipeline
merges dot-path value assignments and unset paths into it, runs server
validations and server field-update callbacks, and persists a scoped
payload. The audit store keeps per-object validation issues keyed by
(objectType, objectUuid, errorCode).

Documents are modelled as an inductive JSON value; dot-paths as lists of
string segments (the segments of the dot-separated path string).
-/

namespace Evolution

/-- JSON values: the shape of interview documents and of the values
assigned through valuesByPath. -/
inductive JsonValue where
  | vNull : JsonValue
  | vBool (b : Bool) : JsonValue
  | vNum (n : Int) : JsonValue
  | vStr (s : String) : JsonValue
  | vArr (xs : List JsonValue) : JsonValue
  | vObj (fs : List (String × JsonValue)) : JsonValue

/-- The fields of a JSON object; any non-object is treated as having no
fields (descending through it replaces it with a fresh object, as the
path-set operation of the source does). -/
def asObj : JsonValue → List (String × JsonValue)
  | .vObj fs => fs
  | _ => []

/-- Look up a key in an object field list (first binding wins). -/
def getKey : List (String × JsonValue) → String → Option JsonValue
  | [], _ => none
  | (k, v) :: rest, key => if k = key then some v else getKey rest key

/-- Replace the binding of a key, or append it when absent (assignment
semantics of a JS object property write). -/
def setKey : List (String × JsonValue) → String → JsonValue → List (String × JsonValue)
  | [], key, v => [(key, v)]
  | (k, w) :: rest, key, v =>
    if k = key then (k, v) :: rest else (k, w) :: setKey rest key v

/-- Delete a key from an object field list (JS delete). -/
def removeKey : List (String × JsonValue) → String → List (String × JsonValue)
  | [], _ => []
  | (k, w) :: rest, key =>
    if k = key then removeKey rest key else (k, w) :: removeKey rest key

/-- A dot-path, as its list of segments. -/
abbrev DotPath := List String

/-- Read the value at a dot-path; none when the path runs through a
missing key or a non-object. -/
def getPath : JsonValue → DotPath → Option JsonValue
  | d, [] => some d
  | d, k :: rest =>
    match getKey (asObj d) k with
    | some c => getPath c rest
    | none => none

/-- The child used when descending through a key during a path-set:
the existing child, or a fresh empty object. -/
def childFor (fs : List (String × JsonValue)) (k : String) : JsonValue :=
  match getKey fs k with
  | some c => c
  | none => .vObj []

/-- Set the value at a dot-path, creating intermediate objects as needed
and replacing non-object intermediates by objects (lodash set semantics,
as exercised by the setInterviewFields tests). -/
def setPath : JsonValue → DotPath → JsonValue → JsonValue
  | _, [], v => v
  | d, k :: rest, v => .vObj (setKey (asObj d) k (setPath (childFor (asObj d) k) rest v))

/-- Delete the value at a dot-path, removing the key and leaving siblings
intact; a path through a missing key or non-object is a no-op (lodash
unset semantics). -/
def unsetPath : JsonValue → DotPath → JsonValue
  | d, [] => d
  | d, k :: rest =>
    match d with
    | .vObj fs =>
      match rest with
      | [] => .vObj (removeKey fs k)
      | _ :: _ =>
        match getKey fs k with
        | some c => .vObj (setKey fs k (unsetPath c rest))
        | none => .vObj fs
    | _ => d

/-- Decides whether path p is an ancestor of (or equal to) path q. -/
def pathLE : DotPath → DotPath → Bool
  | [], _ => true
  | _ :: _, [] => false
  | a :: as, b :: bs => (a = b) && pathLE as bs

/-- Two dot-paths overlap when one is an ancestor of (or equal to) the
other. -/
def overlaps (p q : DotPath) : Bool := pathLE p q || pathLE q p

/-- Apply a batch of path-value assignments in order. -/
def applySets (d : JsonValue) (values : List (DotPath × JsonValue)) : JsonValue :=
  values.foldl (fun acc pv => setPath acc pv.1 pv.2) d

/-- Apply a batch of unset paths in order. -/
def applyUnsets (d : JsonValue) (unsets : List DotPath) : JsonValue :=
  unsets.foldl (fun acc u => unsetPath acc u) d

/-- Modelled from the spec: the path-merge engine setInterviewFields of
evolution-backend (services/interviews/interview.ts, not present under
src, only its unit tests are). Per the spec and the tests, every
valuesByPath assignment is applied first, in order, and every unsetPaths
deletion is applied strictly afterwards, in order. -/
def setInterviewFields (d : JsonValue) (valuesByPath : List (DotPath × JsonValue))
    (unsetPaths : List DotPath) : JsonValue :=
  applyUnsets (applySets d valuesByPath) unsetPaths

theorem getKey_setKey_self (fs : List (String × JsonValue)) (k : String) (v : JsonValue) :
    getKey (setKey fs k v) k = some v := by
  induction fs with
  | nil => simp [setKey, getKey]
  | cons hd tl ih =>
    obtain ⟨k1, w⟩ := hd
    by_cases h : k1 = k
    · simp [setKey, getKey, h]
    · simp [setKey, getKey, h, ih]

theorem getKey_setKey_ne (fs : List (String × JsonValue)) (k k2 : String) (v : JsonValue)
    (h : k2 ≠ k) : getKey (setKey fs k v) k2 = getKey fs k2 := by
  have h3 : k ≠ k2 := Ne.symm h
  induction fs with
  | nil => simp [setKey, getKey, h3]
  | cons hd tl ih =>
    obtain ⟨k1, w⟩ := hd
    by_cases h1 : k1 = k
    · subst h1
      simp [setKey, getKey, h3]
    · by_cases h2 : k1 = k2
      · simp [setKey, getKey, h1, h2, h]
      · simp [setKey, getKey, h1, h2, ih]

theorem getKey_removeKey_self (fs : List (String × JsonValue)) (k : String) :
    getKey (removeKey fs k) k = none := by
  induction fs with
  | nil => simp [removeKey, getKey]
  | cons hd tl ih =>
    obtain ⟨k1, w⟩ := hd
    by_cases h : k1 = k
    · simp [removeKey, getKey, h, ih]
    · simp [removeKey, getKey, h, ih]

theorem getKey_removeKey_ne (fs : List (String × JsonValue)) (k k2 : String)
    (h : k2 ≠ k) : getKey (removeKey fs k) k2 = getKey fs k2 := by
  have h3 : k ≠ k2 := Ne.symm h
  induction fs with
  | nil => simp [removeKey, getKey]
  | cons hd tl ih =>
    obtain ⟨k1, w⟩ := hd
    by_cases h1 : k1 = k
    · subst h1
      simp [removeKey, getKey, h3, ih]
    · by_cases h2 : k1 = k2
      · simp [removeKey, getKey, h1, h2, h]
      · simp [removeKey, getKey, h1, h2, ih]

theorem pathLE_nil_left (p : DotPath) : pathLE [] p = true := by simp [pathLE]

theorem overlaps_comm (p q : DotPath) : overlaps p q = overlaps q p := by
  simp [overlaps, Bool.or_comm]

theorem overlaps_nil_right (p : DotPath) : overlaps p [] = true := by
  simp [overlaps, pathLE]

theorem overlaps_cons_cons_same (a : String) (as bs : DotPath) :
    overlaps (a :: as) (a :: bs) = overlaps as bs := by
  simp [overlaps, pathLE]

theorem overlaps_cons_cons_ne (a b : String) (as bs : DotPath) (h : a ≠ b) :
    overlaps (a :: as) (b :: bs) = false := by
  have h2 : b ≠ a := Ne.symm h
  simp [overlaps, pathLE, h, h2]

theorem asObj_vObj (fs : List (String × JsonValue)) : asObj (.vObj fs) = fs := rfl

theorem getPath_cons (d : JsonValue) (k : String) (rest : DotPath) :
    getPath d (k :: rest) =
      match getKey (asObj d) k with
      | some c => getPath c rest
      | none => none := rfl

theorem getPath_cons_some {d : JsonValue} {k : String} {c : JsonValue} (rest : DotPath)
    (hg : getKey (asObj d) k = some c) : getPath d (k :: rest) = getPath c rest := by
  rw [getPath_cons, hg]

theorem getPath_cons_none {d : JsonValue} {k : String} (rest : DotPath)
    (hg : getKey (asObj d) k = none) : getPath d (k :: rest) = none := by
  rw [getPath_cons, hg]

theorem setPath_cons (d : JsonValue) (k : String) (rest : DotPath) (v : JsonValue) :
    setPath d (k :: rest) v =
      .vObj (setKey (asObj d) k (setPath (childFor (asObj d) k) rest v)) := rfl

theorem childFor_some {fs : List (String × JsonValue)} {k : String} {c : JsonValue}
    (hg : getKey fs k = some c) : childFor fs k = c := by
  simp [childFor, hg]

theorem childFor_none {fs : List (String × JsonValue)} {k : String}
    (hg : getKey fs k = none) : childFor fs k = .vObj [] := by
  simp [childFor, hg]

theorem unsetPath_obj_one (fs : List (String × JsonValue)) (k : String) :
    unsetPath (.vObj fs) [k] = .vObj (removeKey fs k) := rfl

theorem unsetPath_obj_cons2 (fs : List (String × JsonValue)) (k r : String) (rs : DotPath) :
    unsetPath (.vObj fs) (k :: r :: rs) =
      match getKey fs k with
      | some c => .vObj (setKey fs k (unsetPath c (r :: rs)))
      | none => .vObj fs := rfl

theorem getPath_setPath_self (p : DotPath) (d v : JsonValue) :
    getPath (setPath d p v) p = some v := by
  induction p generalizing d with
  | nil => rfl
  | cons k rest ih =>
    rw [setPath_cons,
      getPath_cons_some rest (by rw [asObj_vObj]; exact getKey_setKey_self _ _ _)]
    exact ih _

theorem getPath_setPath_disjoint (q p : DotPath) (d w : JsonValue)
    (h : overlaps p q = false) : getPath (setPath d q w) p = getPath d p := by
  induction q generalizing p d with
  | nil =>
    rw [overlaps_nil_right] at h
    exact absurd h (by simp)
  | cons b bs ih =>
    cases p with
    | nil =>
      rw [overlaps_comm, overlaps_nil_right] at h
      exact absurd h (by simp)
    | cons a as =>
      by_cases hab : a = b
      · subst hab
        rw [overlaps_cons_cons_same] at h
        rw [setPath_cons]
        cases hg : getKey (asObj d) a with
        | some c =>
          rw [getPath_cons_some as (by rw [asObj_vObj]; exact getKey_setKey_self _ _ _),
            childFor_some hg, ih as c h, getPath_cons_some as hg]
        | none =>
          have hne : as ≠ [] := by
            intro hnil
            subst hnil
            rw [show overlaps ([] : DotPath) bs = true from rfl] at h
            exact absurd h (by simp)
          obtain ⟨a2, as2, rfl⟩ := List.exists_cons_of_ne_nil hne
          rw [getPath_cons_some (a2 :: as2)
              (by rw [asObj_vObj]; exact getKey_setKey_self _ _ _),
            childFor_none hg, ih (a2 :: as2) (.vObj []) h,
            getPath_cons_none (a2 :: as2) hg,
            getPath_cons_none as2 (show getKey (asObj (JsonValue.vObj [])) a2 = none from rfl)]
      · rw [setPath_cons, getPath_cons, getPath_cons, asObj_vObj,
          getKey_setKey_ne _ _ _ _ hab]

theorem getPath_unsetPath_self (u : DotPath) (d : JsonValue) (hne : u ≠ []) :
    getPath (unsetPath d u) u = none := by
  induction u generalizing d with
  | nil => exact absurd rfl hne
  | cons k rest ih =>
    cases d with
    | vObj fs =>
      cases rest with
      | nil =>
        rw [unsetPath_obj_one]
        exact getPath_cons_none []
          (by rw [asObj_vObj]; exact getKey_removeKey_self _ _)
      | cons r rs =>
        rw [unsetPath_obj_cons2]
        cases hg : getKey fs k with
        | some c =>
          show getPath (JsonValue.vObj (setKey fs k (unsetPath c (r :: rs)))) (k :: r :: rs) = none
          rw [getPath_cons_some (r :: rs)
              (by rw [asObj_vObj]; exact getKey_setKey_self _ _ _)]
          exact ih _ (by simp)
        | none =>
          show getPath (JsonValue.vObj fs) (k :: r :: rs) = none
          exact getPath_cons_none (r :: rs) (by rw [asObj_vObj]; exact hg)
    | vNull => rfl
    | vBool b => rfl
    | vNum n => rfl
    | vStr s => rfl
    | vArr xs => rfl

theorem getPath_unsetPath_disjoint (u q : DotPath) (d : JsonValue)
    (h : overlaps u q = false) : getPath (unsetPath d u) q = getPath d q := by
  induction u generalizing q d with
  | nil => rfl
  | cons k rest ih =>
    cases q with
    | nil =>
      rw [overlaps_nil_right] at h
      exact absurd h (by simp)
    | cons b bs =>
      cases d with
      | vObj fs =>
        by_cases hkb : k = b
        · subst hkb
          rw [overlaps_cons_cons_same] at h
          cases rest with
          | nil =>
            rw [show overlaps ([] : DotPath) bs = true from rfl] at h
            exact absurd h (by simp)
          | cons r rs =>
            rw [unsetPath_obj_cons2]
            cases hg : getKey fs k with
            | some c =>
              show getPath (JsonValue.vObj (setKey fs k (unsetPath c (r :: rs)))) (k :: bs)
                  = getPath (JsonValue.vObj fs) (k :: bs)
              rw [getPath_cons_some bs (by rw [asObj_vObj]; exact getKey_setKey_self _ _ _),
                ih bs c h, getPath_cons_some bs (by rw [asObj_vObj]; exact hg)]
            | none => rfl
        · cases rest with
          | nil =>
            rw [unsetPath_obj_one, getPath_cons, getPath_cons, asObj_vObj, asObj_vObj,
              getKey_removeKey_ne _ _ _ (Ne.symm hkb)]
          | cons r rs =>
            rw [unsetPath_obj_cons2]
            cases hg : getKey fs k with
            | some c =>
              show getPath (JsonValue.vObj (setKey fs k (unsetPath c (r :: rs)))) (b :: bs)
                  = getPath (JsonValue.vObj fs) (b :: bs)
              rw [getPath_cons, getPath_cons, asObj_vObj, asObj_vObj,
                getKey_setKey_ne _ _ _ _ (Ne.symm hkb)]
            | none => rfl
      | vNull => rfl
      | vBool bb => rfl
      | vNum n => rfl
      | vStr s => rfl
      | vArr xs => rfl

theorem getPath_none_unsetPath (w q : DotPath) (d : JsonValue)
    (h : getPath d q = none) : getPath (unsetPath d w) q = none := by
  induction w generalizing q d with
  | nil => exact h
  | cons k rest ih =>
    cases d with
    | vObj fs =>
      cases q with
      | nil => simp [getPath] at h
      | cons b bs =>
        cases rest with
        | nil =>
          rw [unsetPath_obj_one]
          by_cases hbk : b = k
          · subst hbk
            exact getPath_cons_none bs
              (by rw [asObj_vObj]; exact getKey_removeKey_self _ _)
          · rw [getPath_cons, asObj_vObj, getKey_removeKey_ne _ _ _ hbk]
            rw [getPath_cons, asObj_vObj] at h
            exact h
        | cons r rs =>
          rw [unsetPath_obj_cons2]
          cases hg : getKey fs k with
          | some c =>
            show getPath (JsonValue.vObj (setKey fs k (unsetPath c (r :: rs)))) (b :: bs) = none
            by_cases hbk : b = k
            · subst hbk
              rw [getPath_cons_some bs
                  (by rw [asObj_vObj]; exact getKey_setKey_self _ _ _)]
              rw [getPath_cons_some bs (by rw [asObj_vObj]; exact hg)] at h
              exact ih bs c h
            · rw [getPath_cons, asObj_vObj, getKey_setKey_ne _ _ _ _ hbk]
              rw [getPath_cons, asObj_vObj] at h
              exact h
          | none => exact h
    | vNull => exact h
    | vBool bb => exact h
    | vNum n => exact h
    | vStr s => exact h
    | vArr xs => exact h

theorem applySets_preserve (V : List (DotPath × JsonValue)) (q : DotPath) (d : JsonValue)
    (h : ∀ pv ∈ V, overlaps q pv.1 = false) :
    getPath (applySets d V) q = getPath d q := by
  induction V generalizing d with
  | nil => simp [applySets]
  | cons pv rest ih =>
    have h1 : overlaps q pv.1 = false := h pv (by simp)
    have h2 : ∀ pv2 ∈ rest, overlaps q pv2.1 = false := fun pv2 hm => h pv2 (by simp [hm])
    show getPath (applySets (setPath d pv.1 pv.2) rest) q = getPath d q
    rw [ih (setPath d pv.1 pv.2) h2, getPath_setPath_disjoint _ _ _ _ h1]

theorem applyUnsets_preserve (U : List DotPath) (q : DotPath) (d : JsonValue)
    (h : ∀ u ∈ U, overlaps q u = false) :
    getPath (applyUnsets d U) q = getPath d q := by
  induction U generalizing d with
  | nil => simp [applyUnsets]
  | cons u rest ih =>
    have h1 : overlaps u q = false := by rw [overlaps_comm]; exact h u (by simp)
    have h2 : ∀ u2 ∈ rest, overlaps q u2 = false := fun u2 hm => h u2 (by simp [hm])
    show getPath (applyUnsets (unsetPath d u) rest) q = getPath d q
    rw [ih (unsetPath d u) h2, getPath_unsetPath_disjoint _ _ _ h1]

theorem applyUnsets_none (U : List DotPath) (q : DotPath) (d : JsonValue)
    (h : getPath d q = none) : getPath (applyUnsets d U) q = none := by
  induction U generalizing d with
  | nil => simpa [applyUnsets] using h
  | cons u rest ih =>
    show getPath (applyUnsets (unsetPath d u) rest) q = none
    exact ih (unsetPath d u) (getPath_none_unsetPath _ _ _ h)

theorem getPath_applySets_mem (V : List (DotPath × JsonValue)) (p : DotPath) (v : JsonValue)
    (d : JsonValue) (hpw : V.Pairwise (fun a b => overlaps a.1 b.1 = false))
    (hmem : (p, v) ∈ V) : getPath (applySets d V) p = some v := by
  induction V generalizing d with
  | nil => simp at hmem
  | cons pv rest ih =>
    rcases List.pairwise_cons.mp hpw with ⟨hhead, htail⟩
    rcases List.mem_cons.mp hmem with heq | hmemtail
    · have hp : pv.1 = p := by rw [← heq]
      have hv : pv.2 = v := by rw [← heq]
      show getPath (applySets (setPath d pv.1 pv.2) rest) p = some v
      have hrest : ∀ pv2 ∈ rest, overlaps p pv2.1 = false := by
        intro pv2 hm
        have := hhead pv2 hm
        rwa [hp] at this
      rw [applySets_preserve rest p _ hrest, hp, hv, getPath_setPath_self]
    · exact ih (setPath d pv.1 pv.2) htail hmemtail

/-! Claim C1 and C2: functional behaviour of the path-merge engine. -/

/-- Concrete interview-shaped document used by the C1 and C2 witnesses,
mirroring the fixture of the setInterviewFields unit tests. -/
def sampleDoc : JsonValue :=
  .vObj [("uuid", .vStr "ad0eb1c4-c09e-4541-a9b4-dd80711e1709"),
    ("responses", .vObj [("accessCode", .vStr "11111"),
      ("testFields", .vObj [("fieldA", .vStr "a"), ("fieldB", .vStr "b")])]),
    ("validations", .vObj []),
    ("is_valid", .vBool true)]

/-- Value batch used by the C1 witness. -/
def sampleValues : List (DotPath × JsonValue) :=
  [(["responses", "accessCode"], .vStr "2222"),
   (["responses", "newField", "foo"], .vStr "bar")]

/-- Unset batch used by the C1 witness. -/
def sampleUnsets : List DotPath := [["responses", "testFields", "fieldA"]]

/-- Value batch with one path an ancestor of the other, used by the C1
counterexample. -/
def overlappingValues : List (DotPath × JsonValue) :=
  [(["a"], .vNum 1), (["a", "b"], .vNum 2)]

/-- Claim C1, amended: for every document D, value batch V whose paths are
pairwise non-overlapping and overlap no unset path, and unset batch U,
merging V and U into D yields a document in which reading each path of V
returns its assigned value (intermediate objects created as needed), and
every path overlapping no path of V and no path of U holds the same value
as in D. The amendment adds that the paths of V must be pairwise
non-overlapping, and excludes paths under an unset path from the frame
part; the original statement fails without both, see the counterexample. -/
theorem setInterviewFields_set_get_frame
    (D : JsonValue) (V : List (DotPath × JsonValue)) (U : List DotPath)
    (hpw : V.Pairwise (fun a b => overlaps a.1 b.1 = false))
    (hVU : ∀ pv ∈ V, ∀ u ∈ U, overlaps pv.1 u = false) :
    (∀ pv ∈ V, getPath (setInterviewFields D V U) pv.1 = some pv.2) ∧
    (∀ q : DotPath, (∀ pv ∈ V, overlaps q pv.1 = false) →
      (∀ u ∈ U, overlaps q u = false) →
      getPath (setInterviewFields D V U) q = getPath D q) := by
  constructor
  · intro pv hm
    have h1 : getPath (applySets D V) pv.1 = some pv.2 :=
      getPath_applySets_mem V pv.1 pv.2 D hpw (by simpa using hm)
    have h2 : ∀ u ∈ U, overlaps pv.1 u = false := hVU pv hm
    show getPath (applyUnsets (applySets D V) U) pv.1 = some pv.2
    rw [applyUnsets_preserve U pv.1 _ h2, h1]
  · intro q hqV hqU
    show getPath (applyUnsets (applySets D V) U) q = getPath D q
    rw [applyUnsets_preserve U q _ hqU, applySets_preserve V q D hqV]

/-- Witness for C1: the amended hypotheses hold at the concrete test
fixture and the conclusion follows by the theorem. -/
theorem setInterviewFields_set_get_frame_witness :
    (sampleValues.Pairwise (fun a b => overlaps a.1 b.1 = false) ∧
      (∀ pv ∈ sampleValues, ∀ u ∈ sampleUnsets, overlaps pv.1 u = false)) ∧
    ((∀ pv ∈ sampleValues,
        getPath (setInterviewFields sampleDoc sampleValues sampleUnsets) pv.1 = some pv.2) ∧
      (∀ q : DotPath, (∀ pv ∈ sampleValues, overlaps q pv.1 = false) →
        (∀ u ∈ sampleUnsets, overlaps q u = false) →
        getPath (setInterviewFields sampleDoc sampleValues sampleUnsets) q
          = getPath sampleDoc q)) :=
  ⟨⟨by decide, by decide⟩,
    setInterviewFields_set_get_frame sampleDoc sampleValues sampleUnsets
      (by decide) (by decide)⟩

/-- Counterexample to claim C1 as stated. First input: the batch
overlappingValues satisfies the only hypothesis of the claim (its paths
overlap no unset path, the unset batch being empty), contains the
assignment of 1 to path a, yet after the merge reading path a does not
return 1 (the later assignment to a.b rebuilt a as an object). Second
input: with an empty value batch, path x of the document is under no
value path, yet after the merge with unset batch [x] it no longer holds
its prior value. -/
theorem setInterviewFields_set_get_frame_cex :
    (∀ pv ∈ overlappingValues, ∀ u ∈ ([] : List DotPath), overlaps pv.1 u = false) ∧
    (["a"], JsonValue.vNum 1) ∈ overlappingValues ∧
    getPath (setInterviewFields (.vObj []) overlappingValues []) ["a"] ≠ some (.vNum 1) ∧
    (∀ pv ∈ ([] : List (DotPath × JsonValue)), overlaps ["x"] pv.1 = false) ∧
    getPath (JsonValue.vObj [("x", .vNum 1)]) ["x"] = some (.vNum 1) ∧
    getPath (setInterviewFields (.vObj [("x", .vNum 1)]) [] [["x"]]) ["x"] ≠ some (.vNum 1) := by
  refine ⟨by simp, List.mem_cons_self _ _, ?_, by simp, rfl, ?_⟩
  · intro hcontra
    rw [show getPath (setInterviewFields (.vObj []) overlappingValues []) ["a"]
        = some (.vObj [("b", .vNum 2)]) from rfl] at hcontra
    exact JsonValue.noConfusion (Option.some.inj hcontra)
  · intro hcontra
    rw [show getPath (setInterviewFields (.vObj [("x", .vNum 1)]) [] [["x"]]) ["x"]
        = none from rfl] at hcontra
    exact Option.noConfusion hcontra

/-- Claim C2: unsetPaths deletions are applied strictly after valuesByPath
assignments, so a non-root unset path reads back nothing afterwards even
when a value path wrote at or below it (setting responses.accessCode then
unsetting responses removes the whole responses subtree), while a path
overlapping no unset path and no value path keeps its prior value
(sibling keys of an unset path remain intact). -/
theorem setInterviewFields_unset_wins
    (D : JsonValue) (V : List (DotPath × JsonValue)) (U : List DotPath)
    (u : DotPath) (hu : u ∈ U) (hne : u ≠ []) :
    getPath (setInterviewFields D V U) u = none ∧
    (∀ q : DotPath, (∀ u2 ∈ U, overlaps q u2 = false) →
      (∀ pv ∈ V, overlaps q pv.1 = false) →
      getPath (setInterviewFields D V U) q = getPath D q) := by
  constructor
  · obtain ⟨U1, U2, rfl⟩ := List.append_of_mem hu
    have key : setInterviewFields D V (U1 ++ u :: U2)
        = applyUnsets (unsetPath (applyUnsets (applySets D V) U1) u) U2 := by
      simp [setInterviewFields, applyUnsets, List.foldl_append]
    rw [key]
    exact applyUnsets_none U2 u _ (getPath_unsetPath_self u _ hne)
  · intro q hqU hqV
    show getPath (applyUnsets (applySets D V) U) q = getPath D q
    rw [applyUnsets_preserve U q _ hqU, applySets_preserve V q D hqV]

/-- Witness for C2: setting responses.accessCode while unsetting responses
on the concrete test fixture; the responses subtree is gone afterwards and
untouched siblings such as validations are preserved. -/
theorem setInterviewFields_unset_wins_witness :
    ((["responses"] : DotPath) ∈ ([[ "responses" ]] : List DotPath) ∧
      (["responses"] : DotPath) ≠ []) ∧
    (getPath (setInterviewFields sampleDoc
        [(["responses", "accessCode"], .vStr "2222")] [["responses"]]) ["responses"] = none ∧
      (∀ q : DotPath,
        (∀ u2 ∈ ([[ "responses" ]] : List DotPath), overlaps q u2 = false) →
        (∀ pv ∈ [((["responses", "accessCode"] : DotPath), JsonValue.vStr "2222")],
          overlaps q pv.1 = false) →
        getPath (setInterviewFields sampleDoc
          [(["responses", "accessCode"], .vStr "2222")] [["responses"]]) q
          = getPath sampleDoc q)) :=
  ⟨⟨by decide, by decide⟩,
    setInterviewFields_unset_wins sampleDoc
      [(["responses", "accessCode"], .vStr "2222")] [["responses"]]
      ["responses"] (by decide) (by decide)⟩

/-! The updateInterview pipeline. The implementation lives in
evolution-backend services/interviews/interview.ts, which is not under
src; only its unit tests are. The model below is modelled from the spec
(sections 4.2 to 4.5 and 6), refined where the spec is silent by the
observable behaviour pinned in the unit tests. The Server Validation
Runner, the Server Field-Update Callback Runner and the Persistence
Adapter reload are external collaborators; their outcomes for the at most
two rounds of a request are supplied as an oracle, and the calls made to
them are recorded in the run result. -/

/-- Split a dot-separated field name into its segments. -/
def splitDotAux : List Char → List Char → List String
  | [], acc => [String.mk acc]
  | c :: rest, acc =>
    if c = '.' then String.mk acc :: splitDotAux rest []
    else splitDotAux rest (acc ++ [c])

/-- Split a dot-separated field name into its segments. -/
def splitDot (s : String) : List String := splitDotAux s.toList []

/-- Join path segments back into a dot-separated string (for log entries). -/
def joinDots (p : DotPath) : String := String.intercalate "." p

/-- Last binding of a path in a value batch; mirrors reading a key of the
JS valuesByPath object, where a later write to the same key wins. -/
def assocLast : List (DotPath × JsonValue) → DotPath → Option JsonValue
  | [], _ => none
  | pv :: rest, p =>
    match assocLast rest p with
    | some v => some v
    | none => if pv.1 = p then some pv.2 else none

/-- Whether a JSON value is the null value. -/
def isNullJ : JsonValue → Bool
  | .vNull => true
  | _ => false

/-- Modelled from the spec: the user action variants relevant to the
update pipeline (evolution-common questionnaire types, not under src). -/
inductive UserAction where
  | buttonClick (buttonId : String) : UserAction
  | widgetInteraction (widgetType : String) (path : DotPath) (value : JsonValue) : UserAction
  | sectionChange (targetSection : String) : UserAction

/-- Outcome of the Server Validation Runner: all rules pass, or a mapping
from field name to a bilingual error message object. -/
inductive SVResult where
  | ok : SVResult
  | errors (errs : List (String × JsonValue)) : SVResult

/-- Outcome of one Server Field-Update Callback Runner invocation: the
synchronously returned valuesByPath, an optional redirect URL, and the
valuesByPath the asynchronous continuation (execCallback) later fires
with, when it fires. -/
structure SUOut where
  valuesByPath : List (DotPath × JsonValue)
  redirectUrl : Option String
  fires : Option (List (DotPath × JsonValue))

/-- Recorded arguments of one Server Validation Runner invocation. -/
structure SVCall where
  interview : JsonValue
  cfg : Option String
  valuesByPath : List (DotPath × JsonValue)
  unsetPaths : List DotPath

/-- Recorded arguments of one Server Field-Update Callback Runner
invocation. -/
structure SUCall where
  interview : JsonValue
  callbacks : List String
  valuesByPath : List (DotPath × JsonValue)
  unsetPaths : Option (List DotPath)
  hasExecCallback : Bool

/-- Options of one update request, as in the update request data model of
the spec (section 3). -/
structure UpdateOptions where
  valuesByPath : List (DotPath × JsonValue)
  unsetPaths : Option (List DotPath)
  userAction : Option UserAction
  fieldsToUpdate : Option (List String)
  serverValidationsCfg : Option String
  logData : List (String × JsonValue)
  hasDeferredCallback : Bool

/-- The response returned to the HTTP layer. -/
structure UpdateResponse where
  interviewId : String
  serverValidations : SVResult
  serverValuesByPath : List (DotPath × JsonValue)
  redirectUrl : Option String

/-- Collaborator outcomes for one merge, validate, callback, persist
round. -/
structure RoundOracle where
  sv : SVResult
  su : SUOut

/-- Everything one round produces: the recorded collaborator calls, the
persisted payload, the merged document, the response and the deferred
continuation values when the callback fired them. -/
structure RoundResult where
  svCall : SVCall
  suCall : SUCall
  updCall : String × List (String × JsonValue)
  newDoc : JsonValue
  response : UpdateResponse
  fires : Option (List (DotPath × JsonValue))

/-- The uuid top-level field of an interview document. -/
def interviewUuid (doc : JsonValue) : String :=
  match getPath doc ["uuid"] with
  | some (.vStr s) => s
  | _ => ""

/-- The effective valuesByPath of a request: a widgetInteraction user
action contributes its path and value, entries of the client map take
precedence; any other user action contributes nothing. -/
def effectiveValuesByPath (ua : Option UserAction) (vbp : List (DotPath × JsonValue)) :
    List (DotPath × JsonValue) :=
  match ua with
  | some (.widgetInteraction _ p v) => (p, v) :: vbp
  | _ => vbp

/-- The validations entries added for a failed server validation: each
failed field name f contributes the assignment of false to the path
validations.f. -/
def svErrorEntries : SVResult → List (DotPath × JsonValue)
  | .ok => []
  | .errors errs => errs.map (fun fe => ("validations" :: splitDot fe.1, .vBool false))

/-- The full value batch merged into the document in one round: the
effective client values, then the values returned by the server
field-update callbacks (which therefore win on a shared path), then the
validations.f = false entries for failed validations. -/
def mergedValuesByPath (effVbp serverVbp : List (DotPath × JsonValue)) (sv : SVResult) :
    List (DotPath × JsonValue) :=
  effVbp ++ serverVbp ++ svErrorEntries sv

/-- Whether the special-field freeze policy of the spec (section 4.4)
fires: is_completed or is_valid is set to a non-null value. -/
def frozenTriggered (vbp : List (DotPath × JsonValue)) : Bool :=
  (match assocLast vbp ["is_completed"] with
   | some v => !(isNullJ v)
   | none => false) ||
  (match assocLast vbp ["is_valid"] with
   | some v => !(isNullJ v)
   | none => false)

/-- The persisted payload restricted to the fields to update: each listed
top-level field present in the merged document is copied into the
payload; a listed field absent from the document contributes nothing. -/
def buildBasePayload (d : JsonValue) (fields : List String) :
    List (String × JsonValue) :=
  fields.filterMap (fun f => (getKey (asObj d) f).map (fun v => (f, v)))

/-- Timestamp of a log entry: responses._updatedAt when present, else the
current time. -/
def logTimestamp (doc : JsonValue) (now : Int) : JsonValue :=
  match getPath doc ["responses", "_updatedAt"] with
  | some v => v
  | none => .vNum now

/-- The logs array of a document. -/
def logsOf (doc : JsonValue) : List JsonValue :=
  match getKey (asObj doc) "logs" with
  | some (.vArr xs) => xs
  | _ => []

/-- The log entry appended on an update when database-update logging is
enabled: the optional logData fields, the timestamp and the valuesByPath
of the round. -/
def logEntryFor (logData : List (String × JsonValue)) (doc : JsonValue) (now : Int)
    (vbp : List (DotPath × JsonValue)) : JsonValue :=
  .vObj (logData ++ [("timestamp", logTimestamp doc now),
    ("valuesByPath", .vObj (vbp.map (fun pv => (joinDots pv.1, pv.2))))])

/-- Append a log entry to the logs array of a document. -/
def appendLog (doc : JsonValue) (entry : JsonValue) : JsonValue :=
  setPath doc ["logs"] (.vArr (logsOf doc ++ [entry]))

/-- The default fields persisted when no fieldsToUpdate set is supplied,
as pinned by the updateInterview unit tests: responses and validations. -/
def defaultFieldsToUpdate : List String := ["responses", "validations"]

/-- The full value batch of a round, from the request options and the
round oracle. -/
def roundAllValues (oracle : RoundOracle) (opts : UpdateOptions) :
    List (DotPath × JsonValue) :=
  mergedValuesByPath (effectiveValuesByPath opts.userAction opts.valuesByPath)
    oracle.su.valuesByPath oracle.sv

/-- The merged document of a round: all value batches set, then all unset
paths deleted. -/
def roundMergedDoc (oracle : RoundOracle) (doc : JsonValue) (opts : UpdateOptions) :
    JsonValue :=
  setInterviewFields doc (roundAllValues oracle opts) (opts.unsetPaths.getD [])

/-- The merged document of a round with the log entry appended when
database-update logging is enabled. -/
def roundDocWithLog (logEnabled : Bool) (now : Int) (oracle : RoundOracle)
    (doc : JsonValue) (opts : UpdateOptions) : JsonValue :=
  if logEnabled then
    appendLog (roundMergedDoc oracle doc opts)
      (logEntryFor opts.logData (roundMergedDoc oracle doc opts) now
        (effectiveValuesByPath opts.userAction opts.valuesByPath))
  else roundMergedDoc oracle doc opts

/-- The payload of the Persistence Adapter update of a round: the fields
to update copied from the merged document, the logs when logging is
enabled, and is_frozen forced to true when the freeze policy fires. -/
def roundPayload (logEnabled : Bool) (now : Int) (oracle : RoundOracle)
    (doc : JsonValue) (opts : UpdateOptions) : List (String × JsonValue) :=
  let base := buildBasePayload (roundDocWithLog logEnabled now oracle doc opts)
    (opts.fieldsToUpdate.getD defaultFieldsToUpdate)
  let withLogs :=
    if logEnabled then
      setKey base "logs" (.vArr (logsOf (roundDocWithLog logEnabled now oracle doc opts)))
    else base
  if frozenTriggered (roundAllValues oracle opts) then
    setKey withLogs "is_frozen" (.vBool true)
  else withLogs

/-- Modelled from the spec: one round of the updateInterview pipeline of
evolution-backend interview.ts (not under src, only its unit tests are):
compute the effective valuesByPath, invoke the Server Validation Runner
and the Server Field-Update Callback Runner (their outcomes provided by
the round oracle, their arguments recorded), merge all value batches and
the unset paths into the document, append a log entry when logging is
enabled, build the payload scoped by fieldsToUpdate plus the freeze
policy, and record the Persistence Adapter update call and the
response. -/
def runRound (callbacks : List String) (logEnabled : Bool) (now : Int)
    (oracle : RoundOracle) (doc : JsonValue) (opts : UpdateOptions) : RoundResult :=
  { svCall := ⟨doc, opts.serverValidationsCfg,
      effectiveValuesByPath opts.userAction opts.valuesByPath, opts.unsetPaths.getD []⟩,
    suCall := ⟨doc, callbacks, effectiveValuesByPath opts.userAction opts.valuesByPath,
      opts.unsetPaths, opts.hasDeferredCallback⟩,
    updCall := (interviewUuid doc, roundPayload logEnabled now oracle doc opts),
    newDoc := roundDocWithLog logEnabled now oracle doc opts,
    response := ⟨interviewUuid doc, oracle.sv, oracle.su.valuesByPath, oracle.su.redirectUrl⟩,
    fires := oracle.su.fires }

/-- Collaborator outcomes for a whole request: the first round, the
Persistence Adapter reload by uuid, and the deferred second round. -/
structure PipelineOracle where
  sv1 : SVResult
  su1 : SUOut
  reloaded : Option JsonValue
  sv2 : SVResult
  su2 : SUOut

/-- Observable outcome of one whole update request: the single response
handed to the caller and the ordered collaborator calls. -/
structure RunResult where
  response : UpdateResponse
  svCalls : List SVCall
  suCalls : List SUCall
  updateCalls : List (String × List (String × JsonValue))
  getByUuidCalls : List String

/-- The options of the deferred second round: only the asynchronously
supplied valuesByPath, everything else absent. -/
def deferredRoundOpts (w : List (DotPath × JsonValue)) : UpdateOptions :=
  ⟨w, none, none, none, none, [], false⟩

/-- Modelled from the spec: the updateInterview pipeline of
evolution-backend interview.ts (not under src, only its unit tests are).
The first round always runs and its update call persists the merged
document; when the request supplied a deferredUpdateCallback and the
callback runner fired the asynchronous continuation with values w, the
full record is reloaded by uuid from the Persistence Adapter and a second
round runs against the reloaded document with w and no unset paths. The
response handed to the caller is always the first round response. -/
def updateInterview (callbacks : List String) (logEnabled : Bool) (now : Int)
    (oracle : PipelineOracle) (doc : JsonValue) (opts : UpdateOptions) : RunResult :=
  let r1 := runRound callbacks logEnabled now ⟨oracle.sv1, oracle.su1⟩ doc opts
  match opts.hasDeferredCallback, r1.fires with
  | true, some w =>
    (match oracle.reloaded with
     | some reloadedDoc =>
       let r2 := runRound callbacks logEnabled now ⟨oracle.sv2, oracle.su2⟩
         reloadedDoc (deferredRoundOpts w)
       { response := r1.response,
         svCalls := [r1.svCall, r2.svCall],
         suCalls := [r1.suCall, r2.suCall],
         updateCalls := [r1.updCall, r2.updCall],
         getByUuidCalls := [interviewUuid doc] }
     | none =>
       { response := r1.response, svCalls := [r1.svCall], suCalls := [r1.suCall],
         updateCalls := [r1.updCall], getByUuidCalls := [interviewUuid doc] })
  | _, _ =>
    { response := r1.response, svCalls := [r1.svCall], suCalls := [r1.suCall],
      updateCalls := [r1.updCall], getByUuidCalls := [] }

/-! Supporting lemmas about the round payload and the run shape. -/

theorem getKey_buildBasePayload (d : JsonValue) (fields : List String) (f : String) :
    getKey (buildBasePayload d fields) f =
      if f ∈ fields then getKey (asObj d) f else none := by
  induction fields with
  | nil => simp [buildBasePayload, getKey]
  | cons g rest ih =>
    rw [buildBasePayload, List.filterMap_cons]
    cases hd : getKey (asObj d) g with
    | none =>
      simp only [Option.map_none']
      show getKey (buildBasePayload d rest) f = _
      rw [ih]
      by_cases hfg : f = g
      · subst hfg
        simp [hd]
      · simp [List.mem_cons, hfg]
    | some v =>
      simp only [Option.map_some']
      show getKey ((g, v) :: buildBasePayload d rest) f = _
      by_cases hfg : g = f
      · subst hfg
        simp [getKey, hd]
      · rw [getKey, if_neg hfg, ih]
        simp [List.mem_cons, Ne.symm hfg]

theorem frozenTriggered_of_bool (vbp : List (DotPath × JsonValue)) (b : Bool)
    (h : assocLast vbp ["is_completed"] = some (.vBool b) ∨
      assocLast vbp ["is_valid"] = some (.vBool b)) :
    frozenTriggered vbp = true := by
  rcases h with h | h
  · simp [frozenTriggered, h, isNullJ]
  · simp [frozenTriggered, h, isNullJ]

theorem frozenTriggered_false_of_null (vbp : List (DotPath × JsonValue))
    (h1 : assocLast vbp ["is_completed"] = none ∨
      assocLast vbp ["is_completed"] = some .vNull)
    (h2 : assocLast vbp ["is_valid"] = none ∨
      assocLast vbp ["is_valid"] = some .vNull) :
    frozenTriggered vbp = false := by
  rcases h1 with h1 | h1 <;> rcases h2 with h2 | h2 <;>
    simp [frozenTriggered, h1, h2, isNullJ]

theorem roundPayload_frozen (logEnabled : Bool) (now : Int) (oracle : RoundOracle)
    (doc : JsonValue) (opts : UpdateOptions)
    (h : frozenTriggered (roundAllValues oracle opts) = true) :
    getKey (roundPayload logEnabled now oracle doc opts) "is_frozen"
      = some (.vBool true) := by
  rw [roundPayload, h]
  simp only [if_true]
  exact getKey_setKey_self _ _ _

theorem roundPayload_not_frozen (logEnabled : Bool) (now : Int) (oracle : RoundOracle)
    (doc : JsonValue) (opts : UpdateOptions)
    (h : frozenTriggered (roundAllValues oracle opts) = false)
    (hfield : "is_frozen" ∉ opts.fieldsToUpdate.getD defaultFieldsToUpdate) :
    getKey (roundPayload logEnabled now oracle doc opts) "is_frozen" = none := by
  rw [roundPayload, h]
  simp only [Bool.false_eq_true, if_false]
  cases logEnabled with
  | true =>
    simp only [if_true]
    rw [getKey_setKey_ne _ _ _ _ (by decide), getKey_buildBasePayload, if_neg hfield]
  | false =>
    simp only [Bool.false_eq_true, if_false]
    rw [getKey_buildBasePayload, if_neg hfield]

theorem roundPayload_no_log_char (now : Int) (oracle : RoundOracle)
    (doc : JsonValue) (opts : UpdateOptions) (f : String) :
    getKey (roundPayload false now oracle doc opts) f =
      if frozenTriggered (roundAllValues oracle opts) = true ∧ f = "is_frozen" then
        some (.vBool true)
      else if f ∈ opts.fieldsToUpdate.getD defaultFieldsToUpdate then
        getKey (asObj (roundMergedDoc oracle doc opts)) f
      else none := by
  rw [roundPayload]
  cases hfr : frozenTriggered (roundAllValues oracle opts) with
  | true =>
    simp only [Bool.false_eq_true, if_false, if_true, true_and]
    by_cases hf : f = "is_frozen"
    · subst hf
      rw [getKey_setKey_self]
      simp
    · rw [getKey_setKey_ne _ _ _ _ hf, getKey_buildBasePayload, if_neg hf]
      rw [show roundDocWithLog false now oracle doc opts = roundMergedDoc oracle doc opts
        from rfl]
  | false =>
    simp only [Bool.false_eq_true, if_false, false_and]
    rw [getKey_buildBasePayload]
    rw [show roundDocWithLog false now oracle doc opts = roundMergedDoc oracle doc opts
      from rfl]

theorem updateInterview_updateCalls_head (callbacks : List String) (logEnabled : Bool)
    (now : Int) (oracle : PipelineOracle) (doc : JsonValue) (opts : UpdateOptions) :
    (updateInterview callbacks logEnabled now oracle doc opts).updateCalls.head?
      = some (interviewUuid doc,
        roundPayload logEnabled now ⟨oracle.sv1, oracle.su1⟩ doc opts) := by
  rw [updateInterview]
  split
  · split <;> rfl
  · rfl

theorem updateInterview_svCalls_head (callbacks : List String) (logEnabled : Bool)
    (now : Int) (oracle : PipelineOracle) (doc : JsonValue) (opts : UpdateOptions) :
    (updateInterview callbacks logEnabled now oracle doc opts).svCalls.head?
      = some ⟨doc, opts.serverValidationsCfg,
        effectiveValuesByPath opts.userAction opts.valuesByPath,
        opts.unsetPaths.getD []⟩ := by
  rw [updateInterview]
  split
  · split <;> rfl
  · rfl

theorem updateInterview_suCalls_head (callbacks : List String) (logEnabled : Bool)
    (now : Int) (oracle : PipelineOracle) (doc : JsonValue) (opts : UpdateOptions) :
    (updateInterview callbacks logEnabled now oracle doc opts).suCalls.head?
      = some ⟨doc, callbacks, effectiveValuesByPath opts.userAction opts.valuesByPath,
        opts.unsetPaths, opts.hasDeferredCallback⟩ := by
  rw [updateInterview]
  split
  · split <;> rfl
  · rfl

theorem updateInterview_response_eq (callbacks : List String) (logEnabled : Bool)
    (now : Int) (oracle : PipelineOracle) (doc : JsonValue) (opts : UpdateOptions) :
    (updateInterview callbacks logEnabled now oracle doc opts).response
      = ⟨interviewUuid doc, oracle.sv1, oracle.su1.valuesByPath,
        oracle.su1.redirectUrl⟩ := by
  rw [updateInterview]
  split
  · split <;> rfl
  · rfl

theorem updateInterview_single_round (callbacks : List String) (logEnabled : Bool)
    (now : Int) (oracle : PipelineOracle) (doc : JsonValue) (opts : UpdateOptions)
    (hfd : opts.hasDeferredCallback = false) :
    updateInterview callbacks logEnabled now oracle doc opts =
      { response := ⟨interviewUuid doc, oracle.sv1, oracle.su1.valuesByPath,
          oracle.su1.redirectUrl⟩,
        svCalls := [(runRound callbacks logEnabled now ⟨oracle.sv1, oracle.su1⟩ doc opts).svCall],
        suCalls := [(runRound callbacks logEnabled now ⟨oracle.sv1, oracle.su1⟩ doc opts).suCall],
        updateCalls := [(interviewUuid doc,
          roundPayload logEnabled now ⟨oracle.sv1, oracle.su1⟩ doc opts)],
        getByUuidCalls := [] } := by
  rw [updateInterview, hfd]
  rfl

theorem updateInterview_deferred_shape (callbacks : List String) (logEnabled : Bool)
    (now : Int) (oracle : PipelineOracle) (doc : JsonValue) (opts : UpdateOptions)
    (w : List (DotPath × JsonValue)) (R : JsonValue)
    (hfd : opts.hasDeferredCallback = true)
    (hfire : oracle.su1.fires = some w)
    (hrel : oracle.reloaded = some R) :
    updateInterview callbacks logEnabled now oracle doc opts =
      { response := ⟨interviewUuid doc, oracle.sv1, oracle.su1.valuesByPath,
          oracle.su1.redirectUrl⟩,
        svCalls := [(runRound callbacks logEnabled now ⟨oracle.sv1, oracle.su1⟩ doc opts).svCall,
          (runRound callbacks logEnabled now ⟨oracle.sv2, oracle.su2⟩ R
            (deferredRoundOpts w)).svCall],
        suCalls := [(runRound callbacks logEnabled now ⟨oracle.sv1, oracle.su1⟩ doc opts).suCall,
          (runRound callbacks logEnabled now ⟨oracle.sv2, oracle.su2⟩ R
            (deferredRoundOpts w)).suCall],
        updateCalls := [(interviewUuid doc,
            roundPayload logEnabled now ⟨oracle.sv1, oracle.su1⟩ doc opts),
          (interviewUuid R,
            roundPayload logEnabled now ⟨oracle.sv2, oracle.su2⟩ R (deferredRoundOpts w))],
        getByUuidCalls := [interviewUuid doc] } := by
  have h2 : (runRound callbacks logEnabled now ⟨oracle.sv1, oracle.su1⟩ doc opts).fires
      = some w := hfire
  rw [updateInterview, hfd, h2, hrel]
  rfl

theorem applySets_append (d : JsonValue) (A B : List (DotPath × JsonValue)) :
    applySets d (A ++ B) = applySets (applySets d A) B := by
  simp [applySets, List.foldl_append]

theorem setInterviewFields_no_unsets (d : JsonValue) (V : List (DotPath × JsonValue)) :
    setInterviewFields d V [] = applySets d V := rfl

/-- Trivial collaborator outcome: no server values, no redirect, the
continuation never fires. -/
def trivialSU : SUOut := ⟨[], none, none⟩

/-- Oracle where every collaborator outcome is trivial and the reload
returns nothing. -/
def trivialOracle : PipelineOracle := ⟨.ok, trivialSU, none, .ok, trivialSU⟩

/-! Claim C3: the freeze policy. -/

/-- Claim C3: in every update request, when the merged valuesByPath batch
sets is_completed or is_valid to a boolean, the payload handed to the
Persistence Adapter update carries is_frozen = true; when it sets each of
them to null or not at all (and is_frozen is not itself a requested
field), the payload carries no is_frozen key. -/
theorem updateInterview_freeze_policy (callbacks : List String) (logEnabled : Bool)
    (now : Int) (oracle : PipelineOracle) (doc : JsonValue) (opts : UpdateOptions) :
    (∀ b : Bool,
      (assocLast (roundAllValues ⟨oracle.sv1, oracle.su1⟩ opts) ["is_completed"]
          = some (.vBool b) ∨
        assocLast (roundAllValues ⟨oracle.sv1, oracle.su1⟩ opts) ["is_valid"]
          = some (.vBool b)) →
      ∀ u pl,
        (updateInterview callbacks logEnabled now oracle doc opts).updateCalls.head?
          = some (u, pl) →
        getKey pl "is_frozen" = some (.vBool true)) ∧
    ((assocLast (roundAllValues ⟨oracle.sv1, oracle.su1⟩ opts) ["is_completed"] = none ∨
        assocLast (roundAllValues ⟨oracle.sv1, oracle.su1⟩ opts) ["is_completed"]
          = some .vNull) →
      (assocLast (roundAllValues ⟨oracle.sv1, oracle.su1⟩ opts) ["is_valid"] = none ∨
        assocLast (roundAllValues ⟨oracle.sv1, oracle.su1⟩ opts) ["is_valid"]
          = some .vNull) →
      "is_frozen" ∉ opts.fieldsToUpdate.getD defaultFieldsToUpdate →
      ∀ u pl,
        (updateInterview callbacks logEnabled now oracle doc opts).updateCalls.head?
          = some (u, pl) →
        getKey pl "is_frozen" = none) := by
  constructor
  · intro b hb u pl hhead
    rw [updateInterview_updateCalls_head] at hhead
    have hpl : pl = roundPayload logEnabled now ⟨oracle.sv1, oracle.su1⟩ doc opts :=
      ((Prod.ext_iff.mp (Option.some.inj hhead)).2).symm
    rw [hpl]
    exact roundPayload_frozen _ _ _ _ _ (frozenTriggered_of_bool _ b hb)
  · intro h1 h2 hfield u pl hhead
    rw [updateInterview_updateCalls_head] at hhead
    have hpl : pl = roundPayload logEnabled now ⟨oracle.sv1, oracle.su1⟩ doc opts :=
      ((Prod.ext_iff.mp (Option.some.inj hhead)).2).symm
    rw [hpl]
    exact roundPayload_not_frozen _ _ _ _ _
      (frozenTriggered_false_of_null _ h1 h2) hfield

/-- Request options of the C3 witness, completed case: the client sets
is_completed to true and asks to persist only is_completed. -/
def freezeOptsBool : UpdateOptions :=
  ⟨[(["is_completed"], .vBool true)], none, none, some ["is_completed"], none, [], false⟩

/-- Request options of the C3 witness, null case: the client sets
is_completed to null. -/
def freezeOptsNull : UpdateOptions :=
  ⟨[(["is_completed"], .vNull)], none, none, some ["is_completed"], none, [], false⟩

/-- Witness for C3 at concrete requests: setting is_completed to true
forces is_frozen = true into the payload, setting it to null leaves the
payload without is_frozen. -/
theorem updateInterview_freeze_policy_witness :
    ((assocLast (roundAllValues ⟨trivialOracle.sv1, trivialOracle.su1⟩ freezeOptsBool)
        ["is_completed"] = some (.vBool true) ∨
      assocLast (roundAllValues ⟨trivialOracle.sv1, trivialOracle.su1⟩ freezeOptsBool)
        ["is_valid"] = some (.vBool true)) ∧
      (∀ u pl,
        (updateInterview [] false 0 trivialOracle sampleDoc freezeOptsBool).updateCalls.head?
          = some (u, pl) →
        getKey pl "is_frozen" = some (.vBool true))) ∧
    (((assocLast (roundAllValues ⟨trivialOracle.sv1, trivialOracle.su1⟩ freezeOptsNull)
          ["is_completed"] = none ∨
        assocLast (roundAllValues ⟨trivialOracle.sv1, trivialOracle.su1⟩ freezeOptsNull)
          ["is_completed"] = some .vNull) ∧
      (assocLast (roundAllValues ⟨trivialOracle.sv1, trivialOracle.su1⟩ freezeOptsNull)
          ["is_valid"] = none ∨
        assocLast (roundAllValues ⟨trivialOracle.sv1, trivialOracle.su1⟩ freezeOptsNull)
          ["is_valid"] = some .vNull) ∧
      "is_frozen" ∉ freezeOptsNull.fieldsToUpdate.getD defaultFieldsToUpdate) ∧
      (∀ u pl,
        (updateInterview [] false 0 trivialOracle sampleDoc freezeOptsNull).updateCalls.head?
          = some (u, pl) →
        getKey pl "is_frozen" = none)) :=
  ⟨⟨Or.inl rfl,
      (updateInterview_freeze_policy [] false 0 trivialOracle sampleDoc freezeOptsBool).1
        true (Or.inl rfl)⟩,
    ⟨⟨Or.inr rfl, Or.inl rfl, by decide⟩,
      (updateInterview_freeze_policy [] false 0 trivialOracle sampleDoc freezeOptsNull).2
        (Or.inr rfl) (Or.inl rfl) (by decide)⟩⟩

/-! Claim C5: validation failures are recoverable. -/

/-- Claim C5: when the Server Validation Runner reports a failure mapping,
the request still completes: the response carries the failure mapping as
serverValidations (not an error), exactly one persistence update is
issued, and in its payload the validations tree holds false at the path
of each failed field. Stated for a request with default fields to update,
no unset paths, no deferred callback, logging disabled, and failed fields
whose validations paths are pairwise non-overlapping. -/
theorem updateInterview_validation_failure_persists (callbacks : List String)
    (now : Int) (oracle : PipelineOracle) (doc : JsonValue) (opts : UpdateOptions)
    (errs : List (String × JsonValue))
    (hsv : oracle.sv1 = .errors errs)
    (hud : opts.unsetPaths = none)
    (hfu : opts.fieldsToUpdate = none)
    (hfd : opts.hasDeferredCallback = false)
    (hpw : errs.Pairwise (fun a b =>
      overlaps ("validations" :: splitDot a.1) ("validations" :: splitDot b.1) = false)) :
    (updateInterview callbacks false now oracle doc opts).response.serverValidations
        = .errors errs ∧
    (updateInterview callbacks false now oracle doc opts).updateCalls.length = 1 ∧
    (∀ u pl,
      (updateInterview callbacks false now oracle doc opts).updateCalls.head?
        = some (u, pl) →
      ∀ fe ∈ errs,
        getPath (.vObj pl) ("validations" :: splitDot fe.1) = some (.vBool false)) := by
  refine ⟨?_, ?_, ?_⟩
  · rw [updateInterview_response_eq, hsv]
  · rw [updateInterview_single_round callbacks false now oracle doc opts hfd]
    rfl
  · intro u pl hhead fe hfe
    rw [updateInterview_updateCalls_head] at hhead
    have hpl : pl = roundPayload false now ⟨oracle.sv1, oracle.su1⟩ doc opts :=
      ((Prod.ext_iff.mp (Option.some.inj hhead)).2).symm
    subst hpl
    have hmerged : getPath (roundMergedDoc ⟨oracle.sv1, oracle.su1⟩ doc opts)
        ("validations" :: splitDot fe.1) = some (.vBool false) := by
      rw [roundMergedDoc, hud]
      rw [show (Option.getD (none : Option (List DotPath)) [] : List DotPath) = [] from rfl]
      rw [setInterviewFields_no_unsets]
      rw [show roundAllValues ⟨oracle.sv1, oracle.su1⟩ opts
          = (effectiveValuesByPath opts.userAction opts.valuesByPath
            ++ oracle.su1.valuesByPath) ++ svErrorEntries oracle.sv1 from rfl]
      rw [applySets_append, hsv]
      have hmem : (("validations" :: splitDot fe.1, JsonValue.vBool false))
          ∈ svErrorEntries (.errors errs) := by
        rw [svErrorEntries]
        exact List.mem_map_of_mem _ hfe
      have hpw2 : (svErrorEntries (.errors errs)).Pairwise
          (fun a b => overlaps a.1 b.1 = false) := by
        rw [svErrorEntries]
        exact List.Pairwise.map _ (fun a b hab => hab) hpw
      exact getPath_applySets_mem _ _ _ _ hpw2 hmem
    have hkey : getKey (roundPayload false now ⟨oracle.sv1, oracle.su1⟩ doc opts)
        "validations" = getKey (asObj (roundMergedDoc ⟨oracle.sv1, oracle.su1⟩ doc opts))
        "validations" := by
      rw [roundPayload_no_log_char]
      rw [if_neg (by simp), if_pos (by rw [hfu]; decide)]
    rw [getPath_cons] at hmerged ⊢
    rw [asObj_vObj, hkey]
    exact hmerged

/-- Failure mapping of the C5 witness, as in the invalid server
validations unit test. -/
def failErrs : List (String × JsonValue) :=
  [("foo", .vObj [("fr", .vStr "erreur"), ("en", .vStr "error")])]

/-- Oracle of the C5 witness: the validation runner fails with failErrs,
everything else trivial. -/
def failOracle : PipelineOracle := ⟨.errors failErrs, trivialSU, none, .ok, trivialSU⟩

/-- Request options of the C5 witness. -/
def failOpts : UpdateOptions :=
  ⟨[(["responses", "foo"], .vStr "abc")], none, none, none, some "cfg", [], false⟩

/-- Witness for C5 at the concrete failing-validation request of the unit
tests. -/
theorem updateInterview_validation_failure_persists_witness :
    (failOracle.sv1 = .errors failErrs ∧ failOpts.unsetPaths = none ∧
      failOpts.fieldsToUpdate = none ∧ failOpts.hasDeferredCallback = false ∧
      failErrs.Pairwise (fun a b =>
        overlaps ("validations" :: splitDot a.1) ("validations" :: splitDot b.1) = false)) ∧
    ((updateInterview [] false 0 failOracle sampleDoc failOpts).response.serverValidations
        = .errors failErrs ∧
      (updateInterview [] false 0 failOracle sampleDoc failOpts).updateCalls.length = 1 ∧
      (∀ u pl,
        (updateInterview [] false 0 failOracle sampleDoc failOpts).updateCalls.head?
          = some (u, pl) →
        ∀ fe ∈ failErrs,
          getPath (.vObj pl) ("validations" :: splitDot fe.1) = some (.vBool false))) :=
  ⟨⟨rfl, rfl, rfl, rfl, by decide⟩,
    updateInterview_validation_failure_persists [] 0 failOracle sampleDoc failOpts
      failErrs rfl rfl rfl rfl (by decide)⟩

/-! Claim C8: scoping of the persisted payload. -/

/-- The top-level field names touched by a value batch and an unset
batch: the head segment of every path. -/
def touchedTopLevel (vbp : List (DotPath × JsonValue)) (unsets : List DotPath) :
    List String :=
  vbp.map (fun pv => pv.1.headD "") ++ unsets.map (fun u => u.headD "")

/-- Request options of the C8 counterexample, as in the unit test with no
interview field to update: a single value path under a key that is not an
interview field, nothing else. -/
def untouchedOpts : UpdateOptions :=
  ⟨[(["notAnInterviewField"], .vStr "abc")], none, none, none, none, [], false⟩

/-- Counterexample to claim C8 as stated: in the request of the no
interview field unit test the merge touches only the top-level key
notAnInterviewField, yet the persisted payload contains the untouched
top-level fields responses and validations (with their unchanged values),
so the payload does not contain exactly the touched top-level fields. -/
theorem updateInterview_payload_scope_cex :
    "responses" ∉ touchedTopLevel untouchedOpts.valuesByPath [] ∧
    untouchedOpts.unsetPaths = none ∧
    untouchedOpts.fieldsToUpdate = none ∧
    (updateInterview [] false 0 trivialOracle sampleDoc untouchedOpts).updateCalls =
      [("ad0eb1c4-c09e-4541-a9b4-dd80711e1709",
        [("responses", .vObj [("accessCode", .vStr "11111"),
          ("testFields", .vObj [("fieldA", .vStr "a"), ("fieldB", .vStr "b")])]),
         ("validations", .vObj [])])] := by
  refine ⟨by decide, rfl, rfl, rfl⟩

/-- Claim C8 (amended): with update logging disabled, the payload of the
persistence update is scoped by fieldsToUpdate (defaulting to responses
and validations), not by the touched paths: it holds exactly the listed
top-level fields that exist in the merged document, with their
post-merge values, plus is_frozen = true when the freeze policy fires. -/
theorem updateInterview_payload_scope (callbacks : List String) (now : Int)
    (oracle : PipelineOracle) (doc : JsonValue) (opts : UpdateOptions) :
    ∀ u pl,
      (updateInterview callbacks false now oracle doc opts).updateCalls.head?
        = some (u, pl) →
      ∀ f, getKey pl f =
        if frozenTriggered (roundAllValues ⟨oracle.sv1, oracle.su1⟩ opts) = true
            ∧ f = "is_frozen" then
          some (.vBool true)
        else if f ∈ opts.fieldsToUpdate.getD defaultFieldsToUpdate then
          getKey (asObj (roundMergedDoc ⟨oracle.sv1, oracle.su1⟩ doc opts)) f
        else none := by
  intro u pl hhead f
  rw [updateInterview_updateCalls_head] at hhead
  have hpl : pl = roundPayload false now ⟨oracle.sv1, oracle.su1⟩ doc opts :=
    ((Prod.ext_iff.mp (Option.some.inj hhead)).2).symm
  subst hpl
  exact roundPayload_no_log_char now _ doc opts f

/-- Request options of the C8 witness, as in the fields to update unit
test: values touch validated_data and responses, but only validated_data
is requested for persistence. -/
def scopedOpts : UpdateOptions :=
  ⟨[(["validated_data", "foo"], .vStr "abc"), (["responses", "bar"], .vStr "abc")],
    none, none, some ["validated_data"], none, [], false⟩

/-- Witness for C8 at the fields to update unit test request. -/
theorem updateInterview_payload_scope_witness :
    ((updateInterview [] false 0 trivialOracle sampleDoc scopedOpts).updateCalls.head?
      = some (interviewUuid sampleDoc,
        roundPayload false 0 ⟨trivialOracle.sv1, trivialOracle.su1⟩ sampleDoc scopedOpts)) ∧
    (∀ f, getKey (roundPayload false 0 ⟨trivialOracle.sv1, trivialOracle.su1⟩
        sampleDoc scopedOpts) f =
      if frozenTriggered (roundAllValues ⟨trivialOracle.sv1, trivialOracle.su1⟩ scopedOpts)
          = true ∧ f = "is_frozen" then
        some (.vBool true)
      else if f ∈ scopedOpts.fieldsToUpdate.getD defaultFieldsToUpdate then
        getKey (asObj (roundMergedDoc ⟨trivialOracle.sv1, trivialOracle.su1⟩
          sampleDoc scopedOpts)) f
      else none) :=
  ⟨updateInterview_updateCalls_head [] false 0 trivialOracle sampleDoc scopedOpts,
    fun f => updateInterview_payload_scope [] 0 trivialOracle sampleDoc scopedOpts
      (interviewUuid sampleDoc)
      (roundPayload false 0 ⟨trivialOracle.sv1, trivialOracle.su1⟩ sampleDoc scopedOpts)
      (updateInterview_updateCalls_head [] false 0 trivialOracle sampleDoc scopedOpts) f⟩

/-! Claim C10: the widgetInteraction user action. -/

/-- Claim C10: a widgetInteraction user action with path p and value v is
added to the effective valuesByPath before the Server Validation Runner,
the Server Field-Update Callback Runner and the merge run, so the whole
request behaves exactly as if the client had supplied p with value v in
valuesByPath (client entries for the same path taking precedence); a user
action of any other type, such as buttonClick, adds nothing. -/
theorem updateInterview_user_action (callbacks : List String) (logEnabled : Bool)
    (now : Int) (oracle : PipelineOracle) (doc : JsonValue) (opts : UpdateOptions)
    (wt : String) (p : DotPath) (v : JsonValue) (bid : String) :
    (opts.userAction = some (.widgetInteraction wt p v) →
      updateInterview callbacks logEnabled now oracle doc opts =
        updateInterview callbacks logEnabled now oracle doc
          { valuesByPath := (p, v) :: opts.valuesByPath, unsetPaths := opts.unsetPaths,
            userAction := none, fieldsToUpdate := opts.fieldsToUpdate,
            serverValidationsCfg := opts.serverValidationsCfg, logData := opts.logData,
            hasDeferredCallback := opts.hasDeferredCallback } ∧
      (updateInterview callbacks logEnabled now oracle doc opts).svCalls.head?
        = some ⟨doc, opts.serverValidationsCfg, (p, v) :: opts.valuesByPath,
          opts.unsetPaths.getD []⟩ ∧
      (updateInterview callbacks logEnabled now oracle doc opts).suCalls.head?
        = some ⟨doc, callbacks, (p, v) :: opts.valuesByPath, opts.unsetPaths,
          opts.hasDeferredCallback⟩) ∧
    (opts.userAction = some (.buttonClick bid) →
      updateInterview callbacks logEnabled now oracle doc opts =
        updateInterview callbacks logEnabled now oracle doc
          { valuesByPath := opts.valuesByPath, unsetPaths := opts.unsetPaths,
            userAction := none, fieldsToUpdate := opts.fieldsToUpdate,
            serverValidationsCfg := opts.serverValidationsCfg, logData := opts.logData,
            hasDeferredCallback := opts.hasDeferredCallback } ∧
      (updateInterview callbacks logEnabled now oracle doc opts).svCalls.head?
        = some ⟨doc, opts.serverValidationsCfg, opts.valuesByPath,
          opts.unsetPaths.getD []⟩) := by
  obtain ⟨vbp, up, ua, ftu, svc, ld, hdc⟩ := opts
  constructor
  · intro ha
    simp only [UpdateOptions.userAction] at ha
    subst ha
    refine ⟨rfl, ?_, ?_⟩
    · rw [updateInterview_svCalls_head]
      rfl
    · rw [updateInterview_suCalls_head]
      rfl
  · intro ha
    simp only [UpdateOptions.userAction] at ha
    subst ha
    refine ⟨rfl, ?_⟩
    rw [updateInterview_svCalls_head]
    rfl

/-- Request options of the C10 witness, widget interaction case, as in
the widgetInteraction unit test. -/
def widgetOpts : UpdateOptions :=
  ⟨[(["responses", "foo"], .vStr "abc"), (["validated_data", "foo"], .vStr "def")],
    some [["responses", "accessCode"]],
    some (.widgetInteraction "string" ["responses", "bar"] (.vNum 100)),
    none, none, [], false⟩

/-- Request options of the C10 witness, button click case. -/
def buttonOpts : UpdateOptions :=
  ⟨[(["responses", "foo"], .vStr "abc")], none,
    some (.buttonClick "test"), none, none, [], false⟩

/-- Witness for C10 at the user action unit test requests. -/
theorem updateInterview_user_action_witness :
    (widgetOpts.userAction
        = some (.widgetInteraction "string" ["responses", "bar"] (.vNum 100)) ∧
      (updateInterview [] false 0 trivialOracle sampleDoc widgetOpts).svCalls.head?
        = some ⟨sampleDoc, none,
          (["responses", "bar"], .vNum 100) :: widgetOpts.valuesByPath,
          [["responses", "accessCode"]]⟩) ∧
    (buttonOpts.userAction = some (.buttonClick "test") ∧
      (updateInterview [] false 0 trivialOracle sampleDoc buttonOpts).svCalls.head?
        = some ⟨sampleDoc, none, buttonOpts.valuesByPath, []⟩) :=
  ⟨⟨rfl,
      ((updateInterview_user_action [] false 0 trivialOracle sampleDoc widgetOpts
        "string" ["responses", "bar"] (.vNum 100) "test").1 rfl).2.1⟩,
    ⟨rfl,
      ((updateInterview_user_action [] false 0 trivialOracle sampleDoc buttonOpts
        "string" ["responses", "bar"] (.vNum 100) "test").2 rfl).2⟩⟩

/-! Claim C4: the deferred second round. -/

/-- Claim C4: when a request carries a deferred update callback and the
Server Field-Update Callback Runner fires the asynchronous continuation
with values w, the pipeline reloads the full record by uuid from the
Persistence Adapter, runs the Server Validation Runner and the Server
Field-Update Callback Runner a second time against the reloaded document
with w and empty unset paths (no config, no exec callback), and issues a
second persistence update whose payload is the merge of w into the
reloaded document scoped to the default fields (stated here for a second
round with trivial collaborator outcomes, logging disabled and no freeze
trigger in w), while the response is produced exactly once, from the
first round, and carries only the first round serverValuesByPath. -/
theorem updateInterview_deferred_second_round (callbacks : List String)
    (now : Int) (oracle : PipelineOracle) (doc : JsonValue) (opts : UpdateOptions)
    (w : List (DotPath × JsonValue)) (R : JsonValue)
    (hfd : opts.hasDeferredCallback = true)
    (hfire : oracle.su1.fires = some w)
    (hrel : oracle.reloaded = some R)
    (hsu2 : oracle.su2.valuesByPath = [])
    (hsv2 : oracle.sv2 = .ok)
    (hfrz : frozenTriggered w = false) :
    (updateInterview callbacks false now oracle doc opts).getByUuidCalls
        = [interviewUuid doc] ∧
    (updateInterview callbacks false now oracle doc opts).svCalls
        = [⟨doc, opts.serverValidationsCfg,
            effectiveValuesByPath opts.userAction opts.valuesByPath,
            opts.unsetPaths.getD []⟩,
          ⟨R, none, w, []⟩] ∧
    (updateInterview callbacks false now oracle doc opts).suCalls
        = [⟨doc, callbacks, effectiveValuesByPath opts.userAction opts.valuesByPath,
            opts.unsetPaths, true⟩,
          ⟨R, callbacks, w, none, false⟩] ∧
    (updateInterview callbacks false now oracle doc opts).updateCalls
        = [(interviewUuid doc, roundPayload false now ⟨oracle.sv1, oracle.su1⟩ doc opts),
          (interviewUuid R,
            buildBasePayload (setInterviewFields R w []) defaultFieldsToUpdate)] ∧
    (updateInterview callbacks false now oracle doc opts).response
        = ⟨interviewUuid doc, oracle.sv1, oracle.su1.valuesByPath,
          oracle.su1.redirectUrl⟩ := by
  have hall : roundAllValues ⟨oracle.sv2, oracle.su2⟩ (deferredRoundOpts w) = w := by
    simp [roundAllValues, mergedValuesByPath, effectiveValuesByPath, deferredRoundOpts,
      hsu2, hsv2, svErrorEntries]
  have hpay : roundPayload false now ⟨oracle.sv2, oracle.su2⟩ R (deferredRoundOpts w)
      = buildBasePayload (setInterviewFields R w []) defaultFieldsToUpdate := by
    rw [roundPayload,
      show roundDocWithLog false now ⟨oracle.sv2, oracle.su2⟩ R (deferredRoundOpts w)
        = setInterviewFields R
            (roundAllValues ⟨oracle.sv2, oracle.su2⟩ (deferredRoundOpts w)) [] from rfl,
      hall, hfrz]
    simp only [Bool.false_eq_true, if_false]
    rfl
  rw [updateInterview_deferred_shape callbacks false now oracle doc opts w R
    hfd hfire hrel]
  refine ⟨rfl, rfl, ?_, ?_, rfl⟩
  · rw [← hfd]
    rfl
  · rw [hpay]

/-- Values fired by the asynchronous continuation in the C4 witness, as in
the execution callback unit test. -/
def firedValues : List (DotPath × JsonValue) :=
  [(["responses", "testFields", "fieldC"], .vStr "valC")]

/-- Request options of the C4 witness: the client values of the execution
callback unit test with a deferred update callback supplied. -/
def deferredOpts : UpdateOptions :=
  ⟨[(["responses", "testFields", "fieldB"], .vStr "abc"),
    (["responses", "testFields", "fieldA"], .vStr "clientVal"),
    (["validations", "testFields", "fieldA"], .vBool true)],
    some [["responses", "accessCode"]], none, none, none, [], true⟩

/-- Oracle of the C4 witness: the first callback round returns one server
value and fires the continuation with firedValues; the reload returns the
sample document; the second round is trivial. -/
def deferredOracle : PipelineOracle :=
  ⟨.ok, ⟨[(["responses", "testFields", "fieldB"], .vStr "newVal")], none,
    some firedValues⟩, some sampleDoc, .ok, trivialSU⟩

/-- Witness for C4 at the execution callback unit test request. -/
theorem updateInterview_deferred_second_round_witness :
    (deferredOpts.hasDeferredCallback = true ∧
      deferredOracle.su1.fires = some firedValues ∧
      deferredOracle.reloaded = some sampleDoc ∧
      deferredOracle.su2.valuesByPath = [] ∧
      deferredOracle.sv2 = .ok ∧
      frozenTriggered firedValues = false) ∧
    ((updateInterview [] false 0 deferredOracle sampleDoc deferredOpts).getByUuidCalls
        = [interviewUuid sampleDoc] ∧
      (updateInterview [] false 0 deferredOracle sampleDoc deferredOpts).svCalls
        = [⟨sampleDoc, none,
            effectiveValuesByPath deferredOpts.userAction deferredOpts.valuesByPath,
            deferredOpts.unsetPaths.getD []⟩,
          ⟨sampleDoc, none, firedValues, []⟩] ∧
      (updateInterview [] false 0 deferredOracle sampleDoc deferredOpts).suCalls
        = [⟨sampleDoc, [],
            effectiveValuesByPath deferredOpts.userAction deferredOpts.valuesByPath,
            deferredOpts.unsetPaths, true⟩,
          ⟨sampleDoc, [], firedValues, none, false⟩] ∧
      (updateInterview [] false 0 deferredOracle sampleDoc deferredOpts).updateCalls
        = [(interviewUuid sampleDoc,
            roundPayload false 0 ⟨deferredOracle.sv1, deferredOracle.su1⟩
              sampleDoc deferredOpts),
          (interviewUuid sampleDoc,
            buildBasePayload (setInterviewFields sampleDoc firedValues [])
              defaultFieldsToUpdate)] ∧
      (updateInterview [] false 0 deferredOracle sampleDoc deferredOpts).response
        = ⟨interviewUuid sampleDoc, deferredOracle.sv1,
          deferredOracle.su1.valuesByPath, deferredOracle.su1.redirectUrl⟩) :=
  ⟨⟨rfl, rfl, rfl, rfl, rfl, by decide⟩,
    (updateInterview_deferred_second_round [] 0 deferredOracle sampleDoc deferredOpts
      firedValues sampleDoc rfl rfl rfl rfl rfl (by decide) :)⟩

/-! Claim C9: copyResponsesToValidatedData. -/

/-- The responses object of an interview document (empty when absent or
not an object). -/
def respObjOf (doc : JsonValue) : List (String × JsonValue) :=
  asObj ((getKey (asObj doc) "responses").getD (.vObj []))

/-- The _validationComment field of the prior validated_data of an
interview document, when present. -/
def priorComment (doc : JsonValue) : Option JsonValue :=
  getKey (asObj ((getKey (asObj doc) "validated_data").getD (.vObj []))) "_validationComment"

/-- Modelled from the spec: the validated_data object built by
copyResponsesToValidatedData of evolution-backend interview.ts (not under
src, only its unit tests are): a copy of responses, stamped with
_validatedDataCopiedAt = current time, with the _validationComment of the
prior validated_data written back when one exists. -/
def newValidatedData (now : Int) (doc : JsonValue) : List (String × JsonValue) :=
  match priorComment doc with
  | some c =>
    setKey (setKey (respObjOf doc) "_validatedDataCopiedAt" (.vNum now))
      "_validationComment" c
  | none => setKey (respObjOf doc) "_validatedDataCopiedAt" (.vNum now)

/-- Modelled from the spec: copyResponsesToValidatedData of
evolution-backend interview.ts (not under src): sets validated_data on
the document and calls the Persistence Adapter update with a payload
holding the validated_data field only. Returns the updated document and
the recorded update call. -/
def copyResponsesToValidatedData (now : Int) (doc : JsonValue) :
    JsonValue × (String × List (String × JsonValue)) :=
  (setPath doc ["validated_data"] (.vObj (newValidatedData now doc)),
   (interviewUuid doc, [("validated_data", .vObj (newValidatedData now doc))]))

theorem newValidatedData_stamp (now : Int) (doc : JsonValue) :
    getKey (newValidatedData now doc) "_validatedDataCopiedAt" = some (.vNum now) := by
  rw [newValidatedData]
  cases hc : priorComment doc with
  | some c =>
    simp only []
    rw [getKey_setKey_ne _ _ _ _ (by decide), getKey_setKey_self]
  | none =>
    simp only []
    rw [getKey_setKey_self]

/-- Interview document of the C9 counterexample: its responses already
contain a _validatedDataCopiedAt key. -/
def stampedRespDoc : JsonValue :=
  .vObj [("uuid", .vStr "u1"), ("responses", .vObj [("_validatedDataCopiedAt", .vNum 5)])]

/-- Counterexample to claim C9 as stated: when responses itself holds a
_validatedDataCopiedAt key, the produced validated_data does not contain
every key of responses with its current value: the stamp overwrites it
with the call time. -/
theorem copyResponsesToValidatedData_cex :
    getKey (respObjOf stampedRespDoc) "_validatedDataCopiedAt" = some (.vNum 5) ∧
    getKey (newValidatedData 6 stampedRespDoc) "_validatedDataCopiedAt"
      = some (.vNum 6) ∧
    getKey (newValidatedData 6 stampedRespDoc) "_validatedDataCopiedAt"
      ≠ getKey (respObjOf stampedRespDoc) "_validatedDataCopiedAt" := by
  refine ⟨rfl, rfl, ?_⟩
  intro h
  rw [show getKey (newValidatedData 6 stampedRespDoc) "_validatedDataCopiedAt"
      = some (.vNum 6) from rfl,
    show getKey (respObjOf stampedRespDoc) "_validatedDataCopiedAt"
      = some (.vNum 5) from rfl] at h
  simp only [Option.some.injEq, JsonValue.vNum.injEq] at h
  exact absurd h (by decide)

/-- Claim C9 (amended): copyResponsesToValidatedData produces a
validated_data object holding every key of responses except the metadata
keys (_validatedDataCopiedAt, and _validationComment when a prior comment
exists) with its current value, a _validatedDataCopiedAt stamp equal to
the call time (so a repeated call with a later time changes it), the
preserved _validationComment of the prior validated_data when present,
and records one Persistence Adapter update whose payload holds the
validated_data field only. -/
theorem copyResponsesToValidatedData_spec (now : Int) (doc : JsonValue) :
    (∀ k, k ≠ "_validatedDataCopiedAt" → k ≠ "_validationComment" →
      getKey (newValidatedData now doc) k = getKey (respObjOf doc) k) ∧
    getKey (newValidatedData now doc) "_validatedDataCopiedAt" = some (.vNum now) ∧
    (∀ c, priorComment doc = some c →
      getKey (newValidatedData now doc) "_validationComment" = some c) ∧
    (copyResponsesToValidatedData now doc).2
      = (interviewUuid doc, [("validated_data", .vObj (newValidatedData now doc))]) ∧
    (∀ now2 : Int,
      getKey (newValidatedData now2 ((copyResponsesToValidatedData now doc).1))
        "_validatedDataCopiedAt" = some (.vNum now2)) := by
  refine ⟨?_, newValidatedData_stamp now doc, ?_, rfl, ?_⟩
  · intro k hk1 hk2
    rw [newValidatedData]
    cases hc : priorComment doc with
    | some c =>
      simp only []
      rw [getKey_setKey_ne _ _ _ _ hk2, getKey_setKey_ne _ _ _ _ hk1]
    | none =>
      simp only []
      rw [getKey_setKey_ne _ _ _ _ hk1]
  · intro c hc
    rw [newValidatedData, hc]
    exact getKey_setKey_self _ _ _
  · intro now2
    exact newValidatedData_stamp now2 _

/-- Interview document of the C9 witness: responses present, prior
validated_data with a _validationComment, as in the copy with existing
and comment unit test. -/
def commentedDoc : JsonValue :=
  .vObj [("uuid", .vStr "ad0eb1c4-c09e-4541-a9b4-dd80711e1709"),
    ("responses", .vObj [("accessCode", .vStr "11111"),
      ("testFields", .vObj [("fieldA", .vStr "a"), ("fieldB", .vStr "b")])]),
    ("validated_data", .vObj [("_validatedDataCopiedAt", .vNum 1694541720),
      ("accessCode", .vStr "2222"),
      ("_validationComment", .vStr "This was commented previously")])]

/-- Witness for C9 at a concrete document with a prior validation
comment, as in the copy with existing and comment unit test. -/
theorem copyResponsesToValidatedData_spec_witness :
    (priorComment commentedDoc
        = some (.vStr "This was commented previously")) ∧
    ((∀ k, k ≠ "_validatedDataCopiedAt" → k ≠ "_validationComment" →
        getKey (newValidatedData 7 commentedDoc) k = getKey (respObjOf commentedDoc) k) ∧
      getKey (newValidatedData 7 commentedDoc) "_validatedDataCopiedAt"
        = some (.vNum 7) ∧
      (∀ c, priorComment commentedDoc = some c →
        getKey (newValidatedData 7 commentedDoc) "_validationComment" = some c) ∧
      (copyResponsesToValidatedData 7 commentedDoc).2
        = (interviewUuid commentedDoc,
          [("validated_data", .vObj (newValidatedData 7 commentedDoc))]) ∧
      (∀ now2 : Int,
        getKey (newValidatedData now2 ((copyResponsesToValidatedData 7 commentedDoc).1))
          "_validatedDataCopiedAt" = some (.vNum now2))) :=
  ⟨rfl, copyResponsesToValidatedData_spec 7 commentedDoc⟩

/-! The audit store. The implementation lives in
evolution-backend models/audits.db.queries.ts, which is not under src;
only its database tests are (src/unnamed/part_002). The model below is
modelled from the spec (section 4.5), refined by those tests. -/

/-- An audit record as supplied to the store (ignore may be omitted). -/
structure AuditForObject where
  objectType : String
  objectUuid : String
  version : Int
  level : Option String
  errorCode : String
  message : Option String
  ignore : Option Bool
deriving DecidableEq

/-- An audit record as stored for an interview. -/
structure StoredAudit where
  interviewId : Int
  objectType : String
  objectUuid : String
  version : Int
  level : Option String
  errorCode : String
  message : Option String
  ignore : Bool
deriving DecidableEq

/-- The identity key of an audit: (objectType, objectUuid, errorCode). -/
abbrev AuditKey := String × String × String

/-- Identity key of a supplied audit record. -/
def auditKey (a : AuditForObject) : AuditKey := (a.objectType, a.objectUuid, a.errorCode)

/-- Identity key of a stored audit record. -/
def storedKey (r : StoredAudit) : AuditKey := (r.objectType, r.objectUuid, r.errorCode)

/-- Whether a character is a hexadecimal digit. -/
def isHexDigit (c : Char) : Bool :=
  c.isDigit || (('a' ≤ c) && (c ≤ 'f')) || (('A' ≤ c) && (c ≤ 'F'))

/-- Positional check of the characters of a canonical UUID string. -/
def uuidCharsOk : Nat → List Char → Bool
  | _, [] => true
  | i, c :: rest =>
    (if i = 8 ∨ i = 13 ∨ i = 18 ∨ i = 23 then c = '-' else isHexDigit c)
      && uuidCharsOk (i + 1) rest

/-- Whether a string is a canonical UUID (36 characters, hyphens at
positions 8, 13, 18 and 23, hexadecimal digits elsewhere); a malformed
objectUuid is what makes the audit store reject a record. -/
def isValidUuid (s : String) : Bool :=
  decide (s.toList.length = 36) && uuidCharsOk 0 s.toList

/-- Whether a supplied audit record is valid for insertion. -/
def validAudit (a : AuditForObject) : Bool := isValidUuid a.objectUuid

/-- Find the stored record of an interview with a given identity key. -/
def findAudit (store : List StoredAudit) (iid : Int) (k : AuditKey) :
    Option StoredAudit :=
  store.find? (fun r => decide (r.interviewId = iid ∧ storedKey r = k))

/-- The stored record produced by upserting one supplied audit: its
fields come from the supplied record, except ignore, which is carried
over from a prior record of the interview with the same identity key
(defaulting to false when there is no prior record and none was
supplied). -/
def toStored (store : List StoredAudit) (iid : Int) (a : AuditForObject) : StoredAudit :=
  { interviewId := iid, objectType := a.objectType, objectUuid := a.objectUuid,
    version := a.version, level := a.level, errorCode := a.errorCode,
    message := a.message,
    ignore :=
      match findAudit store iid (auditKey a) with
      | some r => r.ignore
      | none => a.ignore.getD false }

/-- Modelled from the spec: setAuditsForInterview of
evolution-backend audits.db.queries.ts (not under src, only its tests
are). In one transaction it validates the whole batch (any malformed
objectUuid rejects the call and leaves the store untouched), replaces
the records of the interview by the upserted batch (records whose
identity keys are absent from the batch disappear, ignore is preserved
for keys that already exist), and returns the full resulting set for the
interview, not a diff. -/
def setAuditsForInterview (store : List StoredAudit) (iid : Int)
    (batch : List AuditForObject) :
    Except String (List StoredAudit × List StoredAudit) :=
  if batch.all validAudit then
    .ok (batch.map (toStored store iid),
      store.filter (fun r => decide (r.interviewId ≠ iid)) ++ batch.map (toStored store iid))
  else .error "invalid audit in batch"

/-- The store after a setAuditsForInterview call: unchanged when the call
rejects. -/
def applySetAudits (store : List StoredAudit) (iid : Int)
    (batch : List AuditForObject) : List StoredAudit :=
  match setAuditsForInterview store iid batch with
  | .ok res => res.2
  | .error _ => store

/-- Modelled from the spec: updateAudit of audits.db.queries.ts (not
under src): updates the mutable ignore field of the one record matching
the identity key; returns whether a record matched, and the store. -/
def updateAudit (store : List StoredAudit) (iid : Int) (k : AuditKey)
    (newIgnore : Bool) : Bool × List StoredAudit :=
  ((findAudit store iid k).isSome,
   store.map (fun r =>
     if r.interviewId = iid ∧ storedKey r = k then
       { interviewId := r.interviewId, objectType := r.objectType,
         objectUuid := r.objectUuid, version := r.version, level := r.level,
         errorCode := r.errorCode, message := r.message, ignore := newIgnore }
     else r))

/-- Modelled from the spec: getAuditsForInterview of
audits.db.queries.ts (not under src): all records of the interview. -/
def getAuditsForInterview (store : List StoredAudit) (iid : Int) : List StoredAudit :=
  store.filter (fun r => decide (r.interviewId = iid))

theorem storedKey_toStored (store : List StoredAudit) (iid : Int) (a : AuditForObject) :
    storedKey (toStored store iid a) = auditKey a := rfl

theorem interviewId_toStored (store : List StoredAudit) (iid : Int) (a : AuditForObject) :
    (toStored store iid a).interviewId = iid := rfl

/-- Claim C6: setAuditsForInterview upserts by identity key and preserves
the ignore flag: if the store holds a record of the interview with key k
and ignore = true (however it got there, e.g. through updateAudit), then
after a successful call whose batch contains a record with key k (even
with ignore false), every record of the interview with key k, both in
the returned set and in the store, still has ignore = true; and records
of the interview whose identity keys are absent from the batch are no
longer present. -/
theorem setAuditsForInterview_preserves_ignore (S : List StoredAudit) (iid : Int)
    (B2 : List AuditForObject) (k : AuditKey) (r0 : StoredAudit) (a2 : AuditForObject)
    (hprior : findAudit S iid k = some r0)
    (hig : r0.ignore = true)
    (ha2 : a2 ∈ B2) (hk2 : auditKey a2 = k) :
    ∀ res S2, setAuditsForInterview S iid B2 = .ok (res, S2) →
      ((∃ rec ∈ res, storedKey rec = k ∧ rec.ignore = true) ∧
        (∀ rec, findAudit S2 iid k = some rec → rec.ignore = true) ∧
        findAudit S2 iid k ≠ none ∧
        (∀ k2 : AuditKey, (∀ a ∈ B2, auditKey a ≠ k2) → findAudit S2 iid k2 = none)) := by
  intro res S2 hok
  rw [setAuditsForInterview] at hok
  by_cases hval : B2.all validAudit = true
  case neg =>
    rw [if_neg hval] at hok
    exact Except.noConfusion hok
  case pos =>
    rw [if_pos hval] at hok
    injection hok with hpair
    injection hpair with h1 h2
    subst h1
    subst h2
    have higrec : (toStored S iid a2).ignore = true := by
      rw [show (toStored S iid a2).ignore =
          (match findAudit S iid (auditKey a2) with
            | some r => r.ignore
            | none => a2.ignore.getD false) from rfl, hk2, hprior]
      exact hig
    refine ⟨?_, ?_, ?_, ?_⟩
    · exact ⟨toStored S iid a2, List.mem_map_of_mem _ ha2,
        by rw [storedKey_toStored, hk2], higrec⟩
    · intro rec hfind
      have hp := List.find?_some hfind
      have hmem := List.mem_of_find?_eq_some hfind
      rw [decide_eq_true_eq] at hp
      rcases List.mem_append.mp hmem with hmem1 | hmem2
      · have hne := (List.mem_filter.mp hmem1).2
        rw [decide_eq_true_eq] at hne
        exact absurd hp.1 hne
      · rcases List.mem_map.mp hmem2 with ⟨a, haB, hrec⟩
        subst hrec
        have hka : auditKey a = k := by
          rw [← storedKey_toStored S iid a]
          exact hp.2
        rw [show (toStored S iid a).ignore =
            (match findAudit S iid (auditKey a) with
              | some r => r.ignore
              | none => a.ignore.getD false) from rfl, hka, hprior]
        exact hig
    · intro hnone
      have hall := List.find?_eq_none.mp hnone (toStored S iid a2)
        (List.mem_append.mpr (Or.inr (List.mem_map_of_mem _ ha2)))
      apply hall
      rw [decide_eq_true_eq]
      exact ⟨rfl, by rw [storedKey_toStored, hk2]⟩
    · intro k2 hk2abs
      rw [findAudit, List.find?_eq_none]
      intro x hx hpx
      rw [decide_eq_true_eq] at hpx
      rcases List.mem_append.mp hx with hx1 | hx2
      · have hne := (List.mem_filter.mp hx1).2
        rw [decide_eq_true_eq] at hne
        exact hne hpx.1
      · rcases List.mem_map.mp hx2 with ⟨a, haB, hax⟩
        have hka : auditKey a = k2 := by
          rw [← hax] at hpx
          exact hpx.2
        exact hk2abs a haB hka

/-- Claim C7: a batch containing one invalid record (malformed
objectUuid) makes setAuditsForInterview reject the whole call, and the
stored set is left exactly as before the call (all-or-nothing). -/
theorem setAuditsForInterview_atomic_reject (S : List StoredAudit) (iid : Int)
    (B : List AuditForObject) (a : AuditForObject)
    (ha : a ∈ B) (hbad : validAudit a = false) :
    (∀ res S2, setAuditsForInterview S iid B ≠ .ok (res, S2)) ∧
    applySetAudits S iid B = S := by
  have hval : ¬ B.all validAudit = true := by
    intro h
    have h2 := List.all_eq_true.mp h a ha
    rw [hbad] at h2
    exact Bool.false_ne_true h2
  constructor
  · intro res S2 hok
    rw [setAuditsForInterview, if_neg hval] at hok
    exact Except.noConfusion hok
  · rw [applySetAudits, setAuditsForInterview, if_neg hval]

/-- A canonical person UUID used by the audit witnesses. -/
def uuidP1 : String := "11111111-1111-1111-1111-111111111111"

/-- First audit of the C6 witness batch, as in the set new audits that
will be updated database test. -/
def auditA : AuditForObject :=
  ⟨"person", uuidP1, 2, some "warning", "NewPersonErrorCode1", some "NewMessage1",
    some false⟩

/-- Second audit of the C6 witness batch. -/
def auditB : AuditForObject :=
  ⟨"person", "22222222-2222-2222-2222-222222222222", 2, some "info",
    "NewPersonErrorCode1", some "NewMEssage2", some false⟩

/-- Store after the first setAuditsForInterview call of the witness. -/
def storeAfterSet1 : List StoredAudit := applySetAudits [] 2 [auditA, auditB]

/-- Identity key of auditA. -/
def keyA : AuditKey := ("person", uuidP1, "NewPersonErrorCode1")

/-- Store of the witness after updateAudit set ignore to true on keyA. -/
def storeAfterIgnore : List StoredAudit := (updateAudit storeAfterSet1 2 keyA true).2

/-- Stored record with ignore true expected for keyA before the second
call of the witness. -/
def recA : StoredAudit :=
  ⟨2, "person", uuidP1, 2, some "warning", "NewPersonErrorCode1", some "NewMessage1",
    true⟩

/-- Second batch of the C6 witness: auditA again (with ignore false) and
a replacement record under a new error code. -/
def batch2 : List AuditForObject :=
  [auditA,
    ⟨"person", "22222222-2222-2222-2222-222222222222", 2, some "info",
      "this-is-a-new-error", some "NewMEssage2", some false⟩]

/-- Witness for C6: after a first call and an updateAudit that set ignore
to true, a second call whose batch resubmits the same identity key with
ignore false still preserves ignore = true, and keys absent from the
second batch disappear. -/
theorem setAuditsForInterview_preserves_ignore_witness :
    (findAudit storeAfterIgnore 2 keyA = some recA ∧ recA.ignore = true ∧
      auditA ∈ batch2 ∧ auditKey auditA = keyA) ∧
    (∀ res S2, setAuditsForInterview storeAfterIgnore 2 batch2 = .ok (res, S2) →
      ((∃ rec ∈ res, storedKey rec = keyA ∧ rec.ignore = true) ∧
        (∀ rec, findAudit S2 2 keyA = some rec → rec.ignore = true) ∧
        findAudit S2 2 keyA ≠ none ∧
        (∀ k2 : AuditKey, (∀ a ∈ batch2, auditKey a ≠ k2) →
          findAudit S2 2 k2 = none))) :=
  ⟨⟨rfl, rfl, by decide, rfl⟩,
    setAuditsForInterview_preserves_ignore storeAfterIgnore 2 batch2 keyA recA auditA
      rfl rfl (by decide) rfl⟩

/-- Invalid audit of the C7 witness: a malformed objectUuid, as in the
set new audits with errors database test. -/
def badAudit : AuditForObject :=
  ⟨"person", "notAUUID", 2, none, "NewPersonErrorCode1", some "NewMessage1",
    some false⟩

/-- Witness for C7: a batch holding the malformed record is rejected and
the store stays exactly what it was. -/
theorem setAuditsForInterview_atomic_reject_witness :
    (badAudit ∈ [badAudit] ∧ validAudit badAudit = false) ∧
    ((∀ res S2, setAuditsForInterview storeAfterIgnore 2 [badAudit] ≠ .ok (res, S2)) ∧
      applySetAudits storeAfterIgnore 2 [badAudit] = storeAfterIgnore) :=
  ⟨⟨by decide, by decide⟩,
    setAuditsForInterview_atomic_reject storeAfterIgnore 2 [badAudit] badAudit
      (by decide) (by decide)⟩

end Evolution
